import Mathlib

/-!
Verification of the restQL-golang response layer (status aggregation,
cache-control merge, response encoding), the `in` aggregation shaper,
the parser entry point and the persistence no-op database, against the
repository sources.

JSON bodies are modelled as an inductive tree, Go `interface{}` resource
values as the `Resource` inductive, Go maps as association lists (with the
client-observable key order of `encoding/json`, which sorts map keys,
modelled explicitly), and Go `nil` as `Option.none`.
-/

namespace RestQL

/-- JSON value tree: the model for upstream response bodies
(`interface{}` values decoded by `encoding/json`). -/
inductive Json where
  | null
  | bool (b : Bool)
  | num (n : Int)
  | str (s : String)
  | arr (elems : List Json)
  | obj (fields : List (String × Json))

/-- Go `domain.ResourceCacheControlValue`: a single cache-control directive
value; `Exist = false` (with zero `Time`) is the Go zero value used for an
undeclared directive. -/
structure ResourceCacheControlValue where
  Exist : Bool := false
  Time : Int := 0
deriving DecidableEq, Repr

/-- Go `domain.ResourceCacheControl`: the cache-control information carried by
a statement result. -/
structure ResourceCacheControl where
  NoCache : Bool := false
  MaxAge : ResourceCacheControlValue := {}
  SMaxAge : ResourceCacheControlValue := {}
deriving DecidableEq, Repr

/-- Go `domain.DoneResource`: a completed statement result. `ResponseBody` is
`none` when the Go interface value is `nil`. -/
structure DoneResource where
  Status : Int := 0
  Success : Bool := false
  IgnoreErrors : Bool := false
  CacheControl : ResourceCacheControl := {}
  Method : String := ""
  URL : String := ""
  RequestHeaders : List (String × String) := []
  ResponseHeaders : List (String × String) := []
  RequestParams : List (String × Json) := []
  RequestBody : Option Json := none
  ResponseTime : Int := 0
  ResponseBody : Option Json := none

/-- A value stored in the `domain.Resources` map: either a single
`DoneResource`, a multiplexed `DoneResources` list (whose elements are
again arbitrary resource values, as in Go where `DoneResources` is a slice
of `interface{}`), or any other value (e.g. a still-pending placeholder),
which the response layer treats through its `default` switch cases. -/
inductive Resource where
  | done (r : DoneResource)
  | doneList (rs : List Resource)
  | pending

/-- Go `domain.Resources`: the per-request state, keyed by statement alias or
resource name.  Go uses an unordered map; the association list fixes one
iteration order (all aggregate computations below are order-insensitive
except where noted). -/
abbrev Resources := List (String × Resource)

/-! ## Status code aggregation (`CalculateStatusCode`, recover.go 202-258) -/

/-- The `statusNormalization` map of recover.go line 222:
`{0: 500, 204: 200, 201: 200}`; `none` models a failed map lookup. -/
def statusNormalization (status : Int) : Option Int :=
  if status = 0 then some 500
  else if status = 204 then some 200
  else if status = 201 then some 200
  else none

mutual

/-- Go `calculateResultStatusCode` (recover.go 224-243): a `DoneResource` with
`IgnoreErrors` contributes 200; otherwise its status is normalized; a
`DoneResources` contributes the max over its elements (with the 200 floor
of `findMaxStatusCode`); any other value contributes 500. -/
def calculateResultStatusCode : Resource → Int
  | .done r =>
      if r.IgnoreErrors then 200
      else
        match statusNormalization r.Status with
        | some normalized => normalized
        | none => r.Status
  | .doneList rs => maxStatusFold 200 rs
  | .pending => 500

/-- The loop of `findMaxStatusCode` (recover.go 245-258), fused with the
status computation of each element: starting from 200, keep the larger of
the accumulator and each element status. -/
def maxStatusFold : Int → List Resource → Int
  | mx, [] => mx
  | mx, r :: rest =>
      let s := calculateResultStatusCode r
      maxStatusFold (if s > mx then s else mx) rest

end

/-- Go `findMaxStatusCode` (recover.go 245-258). -/
def findMaxStatusCode (results : List Resource) : Int :=
  maxStatusFold 200 results

/-- Go `CalculateStatusCode` (recover.go 209-220): collects the map values and
takes the max status (the collection order does not matter for a max). -/
def CalculateStatusCode (queryResult : Resources) : Int :=
  findMaxStatusCode (queryResult.map Prod.snd)

/-! Spec-side status aggregation, written from the spec's words for the
refinement claim C1 (amended with the 200 floor the code applies). -/

mutual

/-- Spec-side per-statement status: `ignore-errors` pins 200, the
normalization `{0 → 500, 201 → 200, 204 → 200}` applies, a `DoneResources`
contributes the maximum of 200 and its own elements, any other entry 500. -/
def specStatementStatus : Resource → Int
  | .done r =>
      if r.IgnoreErrors then 200
      else
        match statusNormalization r.Status with
        | some normalized => normalized
        | none => r.Status
  | .doneList rs => specMaxStatus rs
  | .pending => 500

/-- Spec-side maximum of 200 and the per-element statuses, written as a
right fold of `max`. -/
def specMaxStatus : List Resource → Int
  | [] => 200
  | r :: rest => max (specStatementStatus r) (specMaxStatus rest)

end

/-- Spec-side aggregate status: the maximum of 200 and every statement's
contribution. -/
def specAggregateStatus (queryResult : Resources) : Int :=
  specMaxStatus (queryResult.map Prod.snd)

/-! ## Cache-control aggregation (`findMinCacheControl`, recover.go 260-348) -/

/-- One iteration of the loop body of `findMinCacheControl`
(recover.go 294-311): note that in the default branch the incoming
`cc.MaxAge`/`cc.SMaxAge` are compared by `Time` alone, without consulting
`cc.MaxAge.Exist`. -/
def minCacheStep (mn cc : ResourceCacheControl) : ResourceCacheControl :=
  if mn.NoCache then mn
  else if cc.NoCache then { mn with NoCache := true }
  else
    { NoCache := false
      MaxAge :=
        if !mn.MaxAge.Exist || cc.MaxAge.Time < mn.MaxAge.Time then cc.MaxAge
        else mn.MaxAge
      SMaxAge :=
        if !mn.SMaxAge.Exist || cc.SMaxAge.Time < mn.SMaxAge.Time then cc.SMaxAge
        else mn.SMaxAge }

mutual

/-- Go `calculateResultCacheControl` (recover.go 316-325): a `DoneResource`
contributes its own cache control, a `DoneResources` the min over its
elements, anything else the zero value. -/
def calculateResultCacheControl : Resource → ResourceCacheControl
  | .done r => r.CacheControl
  | .doneList rs => minCacheFold { MaxAge := { Exist := false }, SMaxAge := { Exist := false } } rs
  | .pending => {}

/-- The loop of `findMinCacheControl` (recover.go 283-314), fused with the
per-element cache-control computation. -/
def minCacheFold : ResourceCacheControl → List Resource → ResourceCacheControl
  | mn, [] => mn
  | mn, r :: rest => minCacheFold (minCacheStep mn (calculateResultCacheControl r)) rest

end

/-- Go `findMinCacheControl` (recover.go 283-314). -/
def findMinCacheControl (results : List Resource) : ResourceCacheControl :=
  minCacheFold { MaxAge := { Exist := false }, SMaxAge := { Exist := false } } results

/-- Go `calculateCacheControl` (recover.go 272-281). -/
def calculateCacheControl (queryResult : Resources) : ResourceCacheControl :=
  findMinCacheControl (queryResult.map Prod.snd)

/-- Go `generateCacheControlString` (recover.go 327-348). -/
def generateCacheControlString (cacheControl : ResourceCacheControl) : String :=
  if cacheControl.NoCache then "no-cache"
  else
    let buf := if cacheControl.MaxAge.Exist then "max-age=" ++ toString cacheControl.MaxAge.Time else ""
    if cacheControl.SMaxAge.Exist then
      (if buf.length > 0 then buf ++ ", " else buf) ++ "s-maxage=" ++ toString cacheControl.SMaxAge.Time
    else buf

/-- Go `makeHeaders` (recover.go 260-270). -/
def makeHeaders (queryResult : Resources) : List (String × String) :=
  let cacheControlString := generateCacheControlString (calculateCacheControl queryResult)
  if cacheControlString = "" then [] else [("Cache-Control", cacheControlString)]

/-! ## Response body encoding (`MakeQueryResponse`, recover.go 87-200) -/

/-- Go `StatementMetadata` (recover.go 98-101). -/
structure StatementMetadata where
  IgnoreErrors : String := ""
deriving DecidableEq, Repr

/-- Go `StatementDebugging` (recover.go 87-96). -/
structure StatementDebugging where
  Method : String := ""
  URL : String := ""
  RequestHeaders : List (String × String) := []
  ResponseHeaders : List (String × String) := []
  Params : List (String × Json) := []
  RequestBody : Option Json := none
  ResponseTime : Int := 0

/-- Go `StatementDetails` (recover.go 103-109); `Debug` is `none` unless debug
output was requested. -/
structure StatementDetails where
  Status : Int
  Success : Bool
  Metadata : StatementMetadata
  Debug : Option StatementDebugging := none

/-- The dynamic (`interface{}`) value stored in `StatementResult.Details`:
either the details struct of a single resource or the per-element list
built for `DoneResources` (with `none` for elements whose details are
`nil`). -/
inductive DetailsV where
  | one (d : StatementDetails)
  | many (ds : List (Option DetailsV))

/-- The dynamic (`interface{}`) value stored in `StatementResult.Result`:
either a response body or the per-element list built for `DoneResources`
(with `none` for elements whose result is `nil`). -/
inductive ResultV where
  | val (j : Json)
  | many (rs : List (Option ResultV))

/-- Go `StatementResult` (recover.go 111-115); `none` models a `nil`
interface value. -/
structure StatementResult where
  Details : Option DetailsV := none
  Result : Option ResultV := none

/-- Go `parseDebug` (recover.go 190-200). -/
def parseDebug (resource : DoneResource) : StatementDebugging :=
  { Method := resource.Method
    URL := resource.URL
    RequestHeaders := resource.RequestHeaders
    ResponseHeaders := resource.ResponseHeaders
    Params := resource.RequestParams
    RequestBody := resource.RequestBody
    ResponseTime := resource.ResponseTime }

/-- Go `parseDetails` (recover.go 171-188). -/
def parseDetails (resource : DoneResource) (debug : Bool) : StatementDetails :=
  { Status := resource.Status
    Success := resource.Success
    Metadata := { IgnoreErrors := if resource.IgnoreErrors then "ignore" else "" }
    Debug := if debug then some (parseDebug resource) else none }

mutual

/-- Go `parseResource` (recover.go 136-169): a `DoneResource` yields its
details and its (possibly `nil`) body; a `DoneResources` yields the
per-element details list and, when at least one element produced a result,
the per-element results list — otherwise a `nil` result; any other value
yields the zero `StatementResult`. -/
def parseResource (debug : Bool) : Resource → StatementResult
  | .done r =>
      { Details := some (.one (parseDetails r debug)), Result := r.ResponseBody.map .val }
  | .doneList rs =>
      let results := parseResourceList debug rs
      let details := results.map (·.Details)
      let hasResult := results.any (·.Result.isSome)
      { Details := some (.many details)
        Result := if hasResult then some (.many (results.map (·.Result))) else none }
  | .pending => {}

/-- Element-wise `parseResource` over a `DoneResources` slice
(the loop of recover.go 146-159). -/
def parseResourceList (debug : Bool) : List Resource → List StatementResult
  | [] => []
  | r :: rest => parseResource debug r :: parseResourceList debug rest

end

/-- Go `QueryResponse` (recover.go 117-122); `Body` is a Go
`map[string]StatementResult`, modelled as the association list of inserted
pairs (see `jsonEncodedKeys` for the client-observable key order). -/
structure QueryResponse where
  StatusCode : Int
  Body : List (String × StatementResult)
  Headers : List (String × String)

/-- Go `MakeQueryResponse` (recover.go 124-134). -/
def MakeQueryResponse (queryResult : Resources) (debug : Bool) : QueryResponse :=
  { Body := queryResult.map (fun p => (p.1, parseResource debug p.2))
    StatusCode := CalculateStatusCode queryResult
    Headers := makeHeaders queryResult }

/-- Lexicographic comparison of character sequences by code point: the
order in which Go's `sort.Strings` (byte-wise lexicographic, which agrees
with code-point order under UTF-8) arranges map keys. -/
def goCharListLe : List Char → List Char → Bool
  | [], _ => true
  | _ :: _, [] => false
  | a :: as, b :: bs =>
      if a.toNat < b.toNat then true
      else if b.toNat < a.toNat then false
      else goCharListLe as bs

/-- Go string comparison (byte-wise lexicographic). -/
def goStringLe (a b : String) : Bool := goCharListLe a.data b.data

/-- The client-observable key order of a `map[string]StatementResult`
serialized by Go's `encoding/json`, which emits map keys in sorted order
(the in-memory map itself has unspecified iteration order). -/
def jsonEncodedKeys (body : List (String × StatementResult)) : List String :=
  List.insertionSort (fun a b => goStringLe a b = true) (body.map Prod.fst)

/-! ## Query domain objects (`domain` package, src/unnamed/part_000) -/

/-- Go `domain.Statement` restricted to the fields the verified operations
read (`Resource`, `Alias`, `In`); the remaining fields (method, headers,
with-parameters, timeout, only-filters, cache-control, flags) are never
consulted by the aggregation shaper or the response layer. -/
structure Statement where
  Resource : String := ""
  Alias : String := ""
  In : List String := []
deriving DecidableEq, Repr

/-- Go `domain.Query` restricted likewise (the `Use` modifiers are not read by
the verified operations). -/
structure Query where
  Statements : List Statement := []
deriving DecidableEq, Repr

/-- Modelled from the spec: `domain.NewResourceId` is absent from src/;
per the spec the response keys and resource lookups use "statement aliases
(or resource names)", i.e. the alias when one is given, else the resource
name. -/
def statementKey (st : Statement) : String :=
  if st.Alias = "" then st.Resource else st.Alias

/-- The key order prescribed by the spec for the response body: the
original source order of the query's statements. -/
def sourceOrderKeys (q : Query) : List String :=
  q.Statements.map statementKey

/-! ## `in` aggregation (Shaper).

`eval.ApplyAggregators` is not under src/ (only its test table in
recover.go 349-627 and the spec describe it), so the operation is modelled
from the spec, and validated below against the test table. -/

/-- Go map read on a JSON object: the value at a key, or an empty object
when the key is absent (the walk of the insertion path creates missing
intermediate objects). -/
def objGet : List (String × Json) → String → Json
  | [], _ => Json.obj []
  | (k', v) :: rest, k => if k' = k then v else objGet rest k

/-- Go map write on a JSON object: replace the value at the key, or append
the binding when the key is absent. -/
def objSet : List (String × Json) → String → Json → List (String × Json)
  | [], k, v => [(k, v)]
  | (k', v') :: rest, k, v => if k' = k then (k, v) :: rest else (k', v') :: objSet rest k v

mutual

/-- Modelled from the spec: the body-level insertion of §4.5 —
"take the resource body and insert it at `target[p1][p2]…[pn]`":
if the target body at the parent path is an object, set the key (creating
missing intermediate objects, per the deep-location test case); if the
target body at any intermediate step is a list, apply the insertion
element-wise; if both source and target at the same depth are lists of
equal length, zip them index-wise.  A target that is neither an object nor
a list (or an exhausted path) is left unchanged. -/
def insertAt : Json → List String → Json → Json
  | .arr ts, path, .arr ss =>
      if ts.length = ss.length then .arr (insertZip ts path ss)
      else .arr (insertEach ts path (.arr ss))
  | .arr ts, path, s => .arr (insertEach ts path s)
  | .obj fs, [k], s => .obj (objSet fs k s)
  | .obj fs, k :: rest, s => .obj (objSet fs k (insertAt (objGet fs k) rest s))
  | t, _, _ => t
termination_by t path s => sizeOf t + sizeOf s + path.length
decreasing_by
  all_goals simp_wf
  all_goals try omega
  all_goals
    have h : sizeOf (objGet fs k) ≤ 1 + sizeOf fs := by
      clear rest s
      induction fs with
      | nil => simp [objGet]
      | cons p tail ih =>
          obtain ⟨k', v⟩ := p
          by_cases hk : k' = k
          · simp only [objGet, if_pos hk, List.cons.sizeOf_spec, Prod.mk.sizeOf_spec]
            omega
          · simp only [objGet, if_neg hk, List.cons.sizeOf_spec, Prod.mk.sizeOf_spec] at *
            omega
    omega

/-- Index-wise zip of source elements into target elements. -/
def insertZip : List Json → List String → List Json → List Json
  | [], _, _ => []
  | _ :: _, _, [] => []
  | t :: ts, path, s :: ss => insertAt t path s :: insertZip ts path ss
termination_by ts path ss => sizeOf ts + sizeOf ss + path.length
decreasing_by
  all_goals simp_wf
  all_goals omega

/-- Element-wise insertion of one source into every target element. -/
def insertEach : List Json → List String → Json → List Json
  | [], _, _ => []
  | t :: ts, path, s => insertAt t path s :: insertEach ts path s
termination_by ts path s => sizeOf ts + sizeOf s + path.length
decreasing_by
  all_goals simp_wf
  all_goals omega

end

mutual

/-- Modelled from the spec: the JSON content of a resource, used when a
multiplexed `DoneResources` source is nested whole into a scalar target
(the source bodies become one JSON list, per the
"aggregate one multiplexed resource inside other" test case). -/
def resourceBodyJson : Resource → Json
  | .done r => r.ResponseBody.getD Json.null
  | .doneList rs => Json.arr (resourceBodyJsonList rs)
  | .pending => Json.null

/-- Element-wise `resourceBodyJson`. -/
def resourceBodyJsonList : List Resource → List Json
  | [] => []
  | r :: rest => resourceBodyJson r :: resourceBodyJsonList rest

end

mutual

/-- Whether a resource carries no body content (every `DoneResource`
inside it has a `nil` body); an all-empty source makes the aggregation
step a no-op, which is what keeps re-running the Shaper a no-op (spec §8,
property 4). -/
def bodiesEmpty : Resource → Bool
  | .done r => r.ResponseBody.isNone
  | .doneList rs => bodiesEmptyList rs
  | .pending => true

/-- Element-wise `bodiesEmpty`. -/
def bodiesEmptyList : List Resource → Bool
  | [] => true
  | r :: rest => bodiesEmpty r && bodiesEmptyList rest

end

mutual

/-- Modelled from the spec: "After a successful insertion, the source
resource's body is replaced by an empty body" (§4.5); for a multiplexed
source every element's body is emptied (per the test table's expected
outputs). -/
def emptyBodies : Resource → Resource
  | .done r => .done { r with ResponseBody := none }
  | .doneList rs => .doneList (emptyBodiesList rs)
  | .pending => .pending

/-- Element-wise `emptyBodies`. -/
def emptyBodiesList : List Resource → List Resource
  | [] => []
  | r :: rest => emptyBodies r :: emptyBodiesList rest

end

mutual

/-- Modelled from the spec: resource-level insertion of the source into the
target (§4.5 and §3 "Resource polymorphism": every recursive operation
dispatches on the `DoneResource`/`DoneResources` tag and recurses into the
list case element-wise).  Multiplexed sides follow the body rules: equal
length lists zip, a list target broadcasts the source, a multiplexed
source nested into a scalar target becomes one JSON list of its bodies.
Resources without bodies (and non-done targets) are left unchanged. -/
def aggregateTarget : Resource → List String → Resource → Resource
  | .doneList ts, path, .doneList ss =>
      if ts.length = ss.length then .doneList (aggregateZip ts path ss)
      else .doneList (aggregateEach ts path (.doneList ss))
  | .doneList ts, path, src => .doneList (aggregateEach ts path src)
  | .done t, path, .done s =>
      match t.ResponseBody, s.ResponseBody with
      | some tb, some sb => .done { t with ResponseBody := some (insertAt tb path sb) }
      | _, _ => .done t
  | .done t, path, .doneList ss =>
      .done { t with ResponseBody := t.ResponseBody.map (fun tb => insertAt tb path (Json.arr (resourceBodyJsonList ss))) }
  | t, _, _ => t
termination_by t _ s => sizeOf t + sizeOf s
decreasing_by
  all_goals simp_wf
  all_goals omega

/-- Index-wise zip of multiplexed source elements into multiplexed target
elements. -/
def aggregateZip : List Resource → List String → List Resource → List Resource
  | [], _, _ => []
  | _ :: _, _, [] => []
  | t :: ts, path, s :: ss => aggregateTarget t path s :: aggregateZip ts path ss
termination_by ts _ ss => sizeOf ts + sizeOf ss
decreasing_by
  all_goals simp_wf
  all_goals omega

/-- Element-wise insertion of one source into every multiplexed target
element. -/
def aggregateEach : List Resource → List String → Resource → List Resource
  | [], _, _ => []
  | t :: ts, path, src => aggregateTarget t path src :: aggregateEach ts path src
termination_by ts _ s => sizeOf ts + sizeOf s
decreasing_by
  all_goals simp_wf
  all_goals omega

end

/-- Go map read on the resources map. -/
def lookupRes : Resources → String → Option Resource
  | [], _ => none
  | (a, b) :: rest, k => if a = k then some b else lookupRes rest k

/-- Pointwise update of the resources map at a key (a Go map write on a key
that is present: the key set never changes). -/
def updateRes (rs : Resources) (k : String) (v : Resource) : Resources :=
  (rs : List (String × Resource)).map (fun p => if p.1 = k then (k, v) else p)

/-- Modelled from the spec: the aggregation rewrite for one `in` clause:
the body of the resource at `srcKey` is inserted into the resource at
`target` along `path`, after which the source's body is replaced by an
empty body.  When either key is missing, or the source has no body
content, the map is unchanged (an empty source has nothing to insert,
which is what makes re-running the Shaper a no-op, spec §8 property 4). -/
def applyInAt (acc : Resources) (srcKey target : String) (path : List String) : Resources :=
  match lookupRes acc srcKey, lookupRes acc target with
  | some src, some tgt =>
      if bodiesEmpty src then acc
      else updateRes (updateRes acc target (aggregateTarget tgt path src)) srcKey (emptyBodies src)
  | _, _ => acc

/-- Modelled from the spec: the processing of one statement by
`eval.ApplyAggregators` (absent from src/): statements without an `in`
clause are skipped; a statement with `in: [target, p1, …, pn]` has its
resource nested into the target and its own body emptied. -/
def applyInStatement (acc : Resources) (st : Statement) : Resources :=
  match st.In with
  | [] => acc
  | target :: path => applyInAt acc (statementKey st) target path

/-- Modelled from the spec: `eval.ApplyAggregators` (absent from src/)
resolves the `in` clauses of the query's statements, in source order,
against the resources map. -/
def ApplyAggregators (q : Query) (resources : Resources) : Resources :=
  q.Statements.foldl applyInStatement resources

/-- The entry at a key, when present, carries no body content. -/
def keyEmpty (acc : Resources) (k : String) : Prop :=
  ∀ r, lookupRes acc k = some r → bodiesEmpty r = true

/-! ## Parser entry point (`parser.Parse`, src/unnamed/part_002) -/

/-- Go `SyntaxError{line, col, message}`: the error the generated PEG parser
reports on a grammar violation. -/
structure SyntaxError where
  line : Nat := 0
  col : Nat := 0
  message : String := ""
deriving DecidableEq, Repr

/-- The Go `error` returned by `parser.Parse`: either the generator's
syntax error or an optimizer error. -/
inductive ParseError where
  | syntaxErr (e : SyntaxError)
  | other (msg : String)
deriving DecidableEq, Repr

/-- The zero-value `domain.Query{}` returned alongside an error. -/
def emptyQuery : Query := {}

/-- Go `parser.Parse` (src/unnamed/part_002 lines 28-35): run the AST
generator; on error return the zero-value query and the error, otherwise
hand the AST to the optimizer.  The generated `ast.Generator` and
`Optimize` are not under src/, so they are abstract parameters; the spec
states the generator fails with a `SyntaxError` on every grammar
violation. -/
def parserParse {α : Type} (astGenerate : String → Except SyntaxError α)
    (optimize : α → Query × Option ParseError) (queryStr : String) :
    Query × Option ParseError :=
  match astGenerate queryStr with
  | .error err => (emptyQuery, some (.syntaxErr err))
  | .ok astQuery => optimize astQuery

/-! ## Persistence no-op database (`persistence.NewDatabase`,
src/unnamed/part_002 lines 54-89) -/

/-- Go `restql.Mapping` as carried by `domain.Mapping` (src/unnamed/part_000). -/
structure Mapping where
  ResourceName : String := ""
  Schema : String := ""
  Uri : String := ""
  PathParams : List String := []
deriving DecidableEq, Repr

/-- Go `restql.SavedQuery` (the zero value is returned by the no-op database). -/
structure SavedQuery where
  Name : String := ""
  Text : String := ""
deriving DecidableEq, Repr

/-- The `persistence.Database` interface: both operations return a result
together with a Go `error` (`none` for `nil`). -/
structure Database where
  FindMappingsForTenant : String → List Mapping × Option String
  FindQuery : String → String → Int → SavedQuery × Option String

/-- Go `errNoDatabase` (src/unnamed/part_002 line 79). -/
def errNoDatabase : String := "no op database"

/-- Go `noOpDatabase` (src/unnamed/part_002 lines 81-89): every operation
returns an empty result and the non-nil `errNoDatabase` error. -/
def noOpDatabase : Database :=
  { FindMappingsForTenant := fun _ => ([], some errNoDatabase)
    FindQuery := fun _ _ _ => ({}, some errNoDatabase) }

/-- The value a registered database plugin constructs: either a value
implementing `restql.DatabasePlugin` or one of another type (for which the
cast fails). -/
inductive DbPluginValue where
  | database (d : Database)
  | other (typeName : String)

/-- The registered plugin information: its name and the outcome of its
`New` constructor (a possibly-nil plugin value and a possibly-nil error). -/
structure DatabasePluginInfo where
  Name : String := ""
  New : Option DbPluginValue × Option String

/-- Go `persistence.NewDatabase` (src/unnamed/part_002 lines 54-77): with no
registered plugin the no-op database and a nil error are returned; a
constructor error, a nil plugin value, or a failed cast also fall back to
the no-op database. -/
def NewDatabase (registered : Option DatabasePluginInfo) : Database × Option String :=
  match registered with
  | none => (noOpDatabase, none)
  | some info =>
      match info.New with
      | (_, some err) => (noOpDatabase, some err)
      | (none, none) => (noOpDatabase, none)
      | (some (.database d), none) => (d, none)
      | (some (.other typeName), none) =>
          (noOpDatabase, some ("failed to cast database plugin, unknown type: " ++ typeName))

/-! # Theorems

First, the spec-modelled aggregation operation is validated against the
`TestApplyAggregators` table of recover.go (lines 360-627): the model
reproduces the expected output of the test cases, including the
broadcast, multiplex and zip cases. -/

/-- Test-table validation, "should aggregate one resource inside other"
(recover.go 379-402). -/
theorem validate_aggregate_simple :
    ApplyAggregators
      { Statements := [{ Resource := "hero" }, { Resource := "sidekick", In := ["hero", "sidekick"] }] }
      [("hero", .done { ResponseBody := some (.obj [("id", .num 1), ("name", .str "batman")]) }),
       ("sidekick", .done { ResponseBody := some (.obj [("id", .num 10), ("name", .str "robin")]) })] =
    [("hero", .done { ResponseBody := some (.obj [("id", .num 1), ("name", .str "batman"),
        ("sidekick", .obj [("id", .num 10), ("name", .str "robin")])]) }),
     ("sidekick", .done { ResponseBody := none })] := by
  simp [ApplyAggregators, applyInStatement, applyInAt, statementKey, lookupRes, bodiesEmpty,
        aggregateTarget, insertAt, objSet, objGet, updateRes, emptyBodies]

/-- Test-table validation, "should aggregate one resource inside other in
deep location" (recover.go 403-426): missing intermediate objects are
created along the path. -/
theorem validate_aggregate_deep :
    ApplyAggregators
      { Statements := [{ Resource := "hero" },
                       { Resource := "sidekick", In := ["hero", "info", "partners", "sidekick"] }] }
      [("hero", .done { ResponseBody := some (.obj [("id", .num 1), ("name", .str "batman")]) }),
       ("sidekick", .done { ResponseBody := some (.obj [("id", .num 10), ("name", .str "robin")]) })] =
    [("hero", .done { ResponseBody := some (.obj [("id", .num 1), ("name", .str "batman"),
        ("info", .obj [("partners", .obj [("sidekick", .obj [("id", .num 10), ("name", .str "robin")])])])]) }),
     ("sidekick", .done { ResponseBody := none })] := by
  simp [ApplyAggregators, applyInStatement, applyInAt, statementKey, lookupRes, bodiesEmpty,
        aggregateTarget, insertAt, objSet, objGet, updateRes, emptyBodies]

/-- Test-table validation, "should aggregate one resource inside every item
on target result" (recover.go 487-510): a list target broadcasts the
scalar source element-wise. -/
theorem validate_aggregate_broadcast :
    ApplyAggregators
      { Statements := [{ Resource := "hero" }, { Resource := "sidekick", In := ["hero", "sidekick"] }] }
      [("hero", .done { ResponseBody := some (.arr [.obj [("id", .num 1)], .obj [("id", .num 2)]]) }),
       ("sidekick", .done { ResponseBody := some (.obj [("id", .num 10)]) })] =
    [("hero", .done { ResponseBody := some (.arr [.obj [("id", .num 1), ("sidekick", .obj [("id", .num 10)])],
                                                  .obj [("id", .num 2), ("sidekick", .obj [("id", .num 10)])]]) }),
     ("sidekick", .done { ResponseBody := none })] := by
  simp [ApplyAggregators, applyInStatement, applyInAt, statementKey, lookupRes, bodiesEmpty,
        aggregateTarget, insertAt, insertEach, objSet, objGet, updateRes, emptyBodies]

/-- Test-table validation, "should aggregate one multiplexed resource
inside other" (recover.go 511-545): the multiplexed source's bodies become
one JSON list inside the scalar target, and each source element is
emptied. -/
theorem validate_aggregate_multiplexed_source :
    ApplyAggregators
      { Statements := [{ Resource := "hero" }, { Resource := "sidekick", In := ["hero", "sidekick"] }] }
      [("hero", .done { ResponseBody := some (.obj [("id", .num 1)]) }),
       ("sidekick", .doneList [.done { ResponseBody := some (.obj [("id", .num 10)]) },
                               .done { ResponseBody := some (.obj [("id", .num 11)]) }])] =
    [("hero", .done { ResponseBody := some (.obj [("id", .num 1),
        ("sidekick", .arr [.obj [("id", .num 10)], .obj [("id", .num 11)]])]) }),
     ("sidekick", .doneList [.done { ResponseBody := none }, .done { ResponseBody := none }])] := by
  simp [ApplyAggregators, applyInStatement, applyInAt, statementKey, lookupRes, bodiesEmpty, bodiesEmptyList,
        aggregateTarget, insertAt, objSet, objGet, updateRes, emptyBodies, emptyBodiesList,
        resourceBodyJson, resourceBodyJsonList]

/-- Test-table validation, "should aggregate one multiplexed resource with
other multiplexed resource" (recover.go 546-594): equal-length multiplexed
sides are zipped index-wise. -/
theorem validate_aggregate_multiplexed_zip :
    ApplyAggregators
      { Statements := [{ Resource := "hero" }, { Resource := "sidekick", In := ["hero", "sidekick"] }] }
      [("hero", .doneList [.done { ResponseBody := some (.obj [("id", .num 1)]) },
                           .done { ResponseBody := some (.obj [("id", .num 2)]) }]),
       ("sidekick", .doneList [.done { ResponseBody := some (.obj [("id", .num 10)]) },
                               .done { ResponseBody := some (.obj [("id", .num 11)]) }])] =
    [("hero", .doneList [.done { ResponseBody := some (.obj [("id", .num 1), ("sidekick", .obj [("id", .num 10)])]) },
                         .done { ResponseBody := some (.obj [("id", .num 2), ("sidekick", .obj [("id", .num 11)])]) }]),
     ("sidekick", .doneList [.done { ResponseBody := none }, .done { ResponseBody := none }])] := by
  simp [ApplyAggregators, applyInStatement, applyInAt, statementKey, lookupRes, bodiesEmpty, bodiesEmptyList,
        aggregateTarget, aggregateZip, insertAt, objSet, objGet, updateRes, emptyBodies, emptyBodiesList]

/-- Test-table validation, "should aggregate one list resource with other
list resource" (recover.go 595-618): equal-length list bodies are zipped
index-wise. -/
theorem validate_aggregate_list_zip :
    ApplyAggregators
      { Statements := [{ Resource := "hero" }, { Resource := "sidekick", In := ["hero", "sidekick"] }] }
      [("hero", .done { ResponseBody := some (.arr [.obj [("id", .num 1)], .obj [("id", .num 2)]]) }),
       ("sidekick", .done { ResponseBody := some (.arr [.obj [("id", .num 10)], .obj [("id", .num 11)]]) })] =
    [("hero", .done { ResponseBody := some (.arr [.obj [("id", .num 1), ("sidekick", .obj [("id", .num 10)])],
                                                  .obj [("id", .num 2), ("sidekick", .obj [("id", .num 11)])]]) }),
     ("sidekick", .done { ResponseBody := none })] := by
  simp [ApplyAggregators, applyInStatement, applyInAt, statementKey, lookupRes, bodiesEmpty,
        aggregateTarget, insertAt, insertZip, objSet, objGet, updateRes, emptyBodies]

/-! ## Status aggregation lemmas -/

/-- The running maximum of the `findMaxStatusCode` loop never drops below
its initial value. -/
theorem maxStatusFold_ge_init (l : List Resource) : ∀ mx : Int, mx ≤ maxStatusFold mx l := by
  induction l with
  | nil => intro mx; simp [maxStatusFold]
  | cons r rest ih =>
      intro mx
      simp only [maxStatusFold]
      refine le_trans ?_ (ih _)
      split <;> omega

/-- The `findMaxStatusCode` loop result dominates every element's status. -/
theorem maxStatusFold_ge_elem (l : List Resource) :
    ∀ (mx : Int) (r : Resource), r ∈ l → calculateResultStatusCode r ≤ maxStatusFold mx l := by
  induction l with
  | nil => intro mx r h; cases h
  | cons a rest ih =>
      intro mx r h
      simp only [maxStatusFold]
      rcases List.mem_cons.mp h with rfl | h2
      · refine le_trans ?_ (maxStatusFold_ge_init rest _)
        split <;> omega
      · exact ih _ r h2

/-- The spec-side maximum is at least 200. -/
theorem specMaxStatus_ge (l : List Resource) : 200 ≤ specMaxStatus l := by
  induction l with
  | nil => simp [specMaxStatus]
  | cons r rest ih =>
      simp only [specMaxStatus]
      exact le_trans ih (le_max_right _ _)

mutual

/-- The per-resource status computed by the code coincides with the
spec-side per-statement status. -/
theorem calcStatus_eq_spec : ∀ r : Resource, calculateResultStatusCode r = specStatementStatus r
  | .done d => rfl
  | .pending => rfl
  | .doneList rs => by
      have h := maxStatusFold_eq_spec rs 200 (le_refl 200)
      have h2 := specMaxStatus_ge rs
      simp only [calculateResultStatusCode, specStatementStatus, h]
      omega

/-- The fused max loop computes the maximum of its accumulator and the
spec-side maximum, provided the accumulator already carries the 200
floor. -/
theorem maxStatusFold_eq_spec : ∀ (l : List Resource) (mx : Int), 200 ≤ mx →
    maxStatusFold mx l = max mx (specMaxStatus l)
  | [], mx, h => by
      simp only [maxStatusFold, specMaxStatus]
      omega
  | r :: rest, mx, h => by
      have hr := calcStatus_eq_spec r
      have ih := maxStatusFold_eq_spec rest
        (if calculateResultStatusCode r > mx then calculateResultStatusCode r else mx)
        (by split <;> omega)
      simp only [maxStatusFold, specMaxStatus]
      rw [ih, hr]
      rcases le_total (specStatementStatus r) mx with h1 | h1 <;>
        rcases le_total (specMaxStatus rest) mx with h2 | h2 <;>
        rcases le_total (specStatementStatus r) (specMaxStatus rest) with h3 | h3 <;>
        simp [max_def] <;> split_ifs <;> omega

end

/-- Claim C1 counterexample: a single completed statement whose status is
100 (untouched by the normalization map and without `ignore-errors`) has
per-statement normalized status 100, yet `CalculateStatusCode` returns
200, because the `findMaxStatusCode` loop starts its maximum at 200; so
the aggregate is not the maximum over the per-statement statuses. -/
theorem claim1_counterexample :
    calculateResultStatusCode (.done { Status := 100 }) = 100 ∧
    CalculateStatusCode [("a", .done { Status := 100 })] = 200 := by
  exact ⟨rfl, rfl⟩

/-- Claim C1 (amended): for every Resources map, the aggregate status
equals the maximum of 200 and the per-statement statuses after the
normalization {0 → 500, 201 → 200, 204 → 200}, where `ignore-errors` pins
a statement's contribution to 200 and a `DoneResources` entry contributes
the maximum of 200 and its own elements' contributions. -/
theorem claim1_status_refinement (queryResult : Resources) :
    CalculateStatusCode queryResult = specAggregateStatus queryResult := by
  unfold CalculateStatusCode findMaxStatusCode specAggregateStatus
  rw [maxStatusFold_eq_spec (queryResult.map Prod.snd) 200 (le_refl 200)]
  exact max_eq_right (specMaxStatus_ge _)

/-- Claim C10: `CalculateStatusCode` always returns at least 200, the empty
map yields exactly 200, and an entry that is neither a `DoneResource` nor
a `DoneResources` contributes 500, forcing the aggregate to at least
500. -/
theorem claim10_status_floor :
    (∀ queryResult : Resources, 200 ≤ CalculateStatusCode queryResult) ∧
    CalculateStatusCode [] = 200 ∧
    calculateResultStatusCode .pending = 500 ∧
    (∀ (queryResult : Resources) (k : String),
        (k, Resource.pending) ∈ queryResult → 500 ≤ CalculateStatusCode queryResult) := by
  refine ⟨fun rs => maxStatusFold_ge_init _ 200, rfl, rfl, ?_⟩
  intro rs k hmem
  have hm : Resource.pending ∈ rs.map Prod.snd := List.mem_map_of_mem Prod.snd hmem
  have h := maxStatusFold_ge_elem (rs.map Prod.snd) 200 Resource.pending hm
  simpa [calculateResultStatusCode] using h

/-- Claim C10 witness: a map holding only a pending placeholder aggregates
to at least 500. -/
theorem claim10_witness : 500 ≤ CalculateStatusCode [("a", Resource.pending)] :=
  claim10_status_floor.2.2.2 [("a", Resource.pending)] "a" (List.mem_singleton.mpr rfl)

/-- Claim C2 (code-bug evidence): with one statement declaring
`max-age=5, s-max-age=5` and one statement declaring nothing (the Go zero
value `{Exist: false, Time: 0}`), processing the declaring statement first
drops both directives entirely — the undeclared zero value overwrites the
declared minimum because `findMinCacheControl` compares `Time` without
consulting `Exist` — while the reverse processing order keeps them; the
claimed aggregate (`max-age=5, s-max-age=5`) is produced in only one of
the two iteration orders of the same (unordered) Go map. -/
theorem claim2_cache_eval :
    calculateCacheControl
        [("a", .done { CacheControl := { MaxAge := { Exist := true, Time := 5 },
                                         SMaxAge := { Exist := true, Time := 5 } } }),
         ("b", .done {})] =
      { NoCache := false, MaxAge := { Exist := false, Time := 0 },
        SMaxAge := { Exist := false, Time := 0 } } ∧
    calculateCacheControl
        [("b", .done {}),
         ("a", .done { CacheControl := { MaxAge := { Exist := true, Time := 5 },
                                         SMaxAge := { Exist := true, Time := 5 } } })] =
      { NoCache := false, MaxAge := { Exist := true, Time := 5 },
        SMaxAge := { Exist := true, Time := 5 } } := by
  exact ⟨rfl, rfl⟩

/-! ## Response-body key order (C4) -/

/-- Go string comparison is total. -/
theorem goCharListLe_total : ∀ as bs : List Char, goCharListLe as bs = true ∨ goCharListLe bs as = true
  | [], _ => Or.inl rfl
  | _ :: _, [] => Or.inr rfl
  | a :: as, b :: bs => by
      simp only [goCharListLe]
      rcases Nat.lt_trichotomy a.toNat b.toNat with h | h | h
      · left; simp [h]
      · have h2 : ¬ a.toNat < b.toNat := by omega
        have h3 : ¬ b.toNat < a.toNat := by omega
        rw [if_neg h2, if_neg h3, if_neg h3, if_neg h2]
        exact goCharListLe_total as bs
      · right; simp [h]

/-- Go string comparison is transitive. -/
theorem goCharListLe_trans : ∀ as bs cs : List Char,
    goCharListLe as bs = true → goCharListLe bs cs = true → goCharListLe as cs = true
  | [], _, _ => fun _ _ => rfl
  | _ :: _, [], _ => fun h1 _ => by simp [goCharListLe] at h1
  | _ :: _, _ :: _, [] => fun _ h2 => by simp [goCharListLe] at h2
  | a :: as, b :: bs, c :: cs => fun h1 h2 => by
      simp only [goCharListLe] at h1 h2 ⊢
      rcases Nat.lt_trichotomy a.toNat b.toNat with hab | hab | hab
      · rcases Nat.lt_trichotomy b.toNat c.toNat with hbc | hbc | hbc
        · have hac : a.toNat < c.toNat := by omega
          simp [hac]
        · have hac : a.toNat < c.toNat := by omega
          simp [hac]
        · rw [if_neg (by omega : ¬ b.toNat < c.toNat), if_pos hbc] at h2
          exact absurd h2 Bool.false_ne_true
      · rcases Nat.lt_trichotomy b.toNat c.toNat with hbc | hbc | hbc
        · have hac : a.toNat < c.toNat := by omega
          simp [hac]
        · rw [if_neg (by omega : ¬ a.toNat < b.toNat), if_neg (by omega : ¬ b.toNat < a.toNat)] at h1
          rw [if_neg (by omega : ¬ b.toNat < c.toNat), if_neg (by omega : ¬ c.toNat < b.toNat)] at h2
          rw [if_neg (by omega : ¬ a.toNat < c.toNat), if_neg (by omega : ¬ c.toNat < a.toNat)]
          exact goCharListLe_trans as bs cs h1 h2
        · rw [if_neg (by omega : ¬ b.toNat < c.toNat), if_pos hbc] at h2
          exact absurd h2 Bool.false_ne_true
      · rw [if_neg (by omega : ¬ a.toNat < b.toNat), if_pos hab] at h1
        exact absurd h1 Bool.false_ne_true

instance : IsTotal String (fun a b => goStringLe a b = true) :=
  ⟨fun a b => goCharListLe_total a.data b.data⟩

instance : IsTrans String (fun a b => goStringLe a b = true) :=
  ⟨fun a b c => goCharListLe_trans a.data b.data c.data⟩

/-- Claim C4 counterexample: for a query whose statements appear in source
order `sidekick, hero`, the JSON-encoded response body lists its keys as
`hero, sidekick` — `encoding/json` emits Go map keys in sorted order, not
in statement source order. -/
theorem claim4_counterexample :
    sourceOrderKeys { Statements := [{ Resource := "sidekick" }, { Resource := "hero" }] } =
      ["sidekick", "hero"] ∧
    jsonEncodedKeys (MakeQueryResponse
        [("sidekick", .done {}), ("hero", .done {})] false).Body = ["hero", "sidekick"] ∧
    (["hero", "sidekick"] : List String) ≠ ["sidekick", "hero"] := by
  refine ⟨rfl, by decide, by decide⟩

/-- Claim C4 (amended): the response body contains exactly one entry per
`Resources` key (so its key set is the statements' aliases/resource
names), and the client-observable key order after JSON encoding is
lexicographically sorted — a permutation of the keys — rather than the
statements' source order. -/
theorem claim4_amended (queryResult : Resources) (debug : Bool) :
    (MakeQueryResponse queryResult debug).Body.map Prod.fst = queryResult.map Prod.fst ∧
    List.Perm (jsonEncodedKeys (MakeQueryResponse queryResult debug).Body) (queryResult.map Prod.fst) ∧
    List.Sorted (fun a b => goStringLe a b = true)
      (jsonEncodedKeys (MakeQueryResponse queryResult debug).Body) := by
  have hkeys : (MakeQueryResponse queryResult debug).Body.map Prod.fst = queryResult.map Prod.fst := by
    simp [MakeQueryResponse]
  refine ⟨hkeys, ?_, ?_⟩
  · unfold jsonEncodedKeys
    rw [hkeys]
    exact List.perm_insertionSort _ _
  · exact List.sorted_insertionSort _ _

/-! ## Multiplexed statement encoding (C7) -/

/-- Applying `List.any` over a mapped list tests the composite predicate. -/
theorem any_map_general {α β : Type} (l : List α) (f : α → β) (p : β → Bool) :
    (l.map f).any p = l.any fun x => p (f x) := by
  induction l with
  | nil => rfl
  | cons a rest ih => simp [List.any, ih]

/-- Element-wise `parseResource` is `List.map`. -/
theorem parseResourceList_eq_map (debug : Bool) (rs : List Resource) :
    parseResourceList debug rs = rs.map (parseResource debug) := by
  induction rs with
  | nil => rfl
  | cons r rest ih => simp [parseResourceList, ih]

/-- Claim C7 counterexample: a `DoneResources` of length 1 whose element
has a `nil` body encodes with `Result = nil`, not with a list-valued
result of length 1 (`parseResource` suppresses the result list when no
element produced one), while its details are the expected 1-element
list. -/
theorem claim7_counterexample :
    (parseResource false (.doneList [.done {}])).Result = none ∧
    (parseResource false (.doneList [.done {}])).Details =
      some (.many [some (.one { Status := 0, Success := false, Metadata := { IgnoreErrors := "" } })]) := by
  exact ⟨rfl, rfl⟩

/-- Claim C7 (amended): for every `DoneResources` value of length n, the
encoded details is a list of length n whose element i is derived from
resource element i; the encoded result is the corresponding list of
length n when at least one element produced a result, and `nil`
otherwise. -/
theorem claim7_multiplexed_encoding (debug : Bool) (rs : List Resource) :
    (parseResource debug (.doneList rs)).Details =
      some (.many (rs.map (fun r => (parseResource debug r).Details))) ∧
    (rs.map (fun r => (parseResource debug r).Details)).length = rs.length ∧
    ((parseResource debug (.doneList rs)).Result =
      if rs.any (fun r => ((parseResource debug r).Result).isSome)
      then some (.many (rs.map (fun r => (parseResource debug r).Result)))
      else none) ∧
    (rs.map (fun r => (parseResource debug r).Result)).length = rs.length := by
  have h := parseResourceList_eq_map debug rs
  refine ⟨?_, by simp, ?_, by simp⟩
  · simp only [parseResource, h, List.map_map]
    rfl
  · simp only [parseResource, h, List.map_map]
    have hc : ((List.map (parseResource debug) rs).any fun x => x.Result.isSome) =
        (rs.any fun r => (parseResource debug r).Result.isSome) :=
      any_map_general rs (parseResource debug) (fun x => x.Result.isSome)
    rw [hc]
    rfl

/-! ## Parser entry point (C8) -/

/-- Claim C8: whenever the AST generator rejects the input (which per the
grammar happens exactly on grammar violations), `parser.Parse` returns the
zero-value `Query` together with the syntax error — the optimizer never
runs, so no partially constructed AST accompanies the error. -/
theorem claim8_parse_no_partial_ast {α : Type} (astGenerate : String → Except SyntaxError α)
    (optimize : α → Query × Option ParseError) (queryStr : String) (err : SyntaxError)
    (h : astGenerate queryStr = .error err) :
    parserParse astGenerate optimize queryStr = (emptyQuery, some (.syntaxErr err)) := by
  simp [parserParse, h]

/-- Claim C8 witness: a generator that rejects the input makes
`parser.Parse` return the empty query and the syntax error, even when the
optimizer would have returned something else. -/
theorem claim8_witness :
    parserParse (fun _ => (Except.error { line := 1, col := 2, message := "unexpected token" } :
        Except SyntaxError Unit))
      (fun _ => ({ Statements := [{ Resource := "hero" }] }, none)) "from" =
      (emptyQuery, some (.syntaxErr { line := 1, col := 2, message := "unexpected token" })) :=
  claim8_parse_no_partial_ast _ _ "from" _ rfl

/-! ## Persistence no-op database (C9) -/

/-- Claim C9: with no registered database plugin, `NewDatabase` returns the
no-op database and a nil error, and every operation of the no-op database
returns an empty result together with the non-nil "no op database"
error. -/
theorem claim9_noop_database :
    NewDatabase none = (noOpDatabase, none) ∧
    (∀ tenantID : String,
        noOpDatabase.FindMappingsForTenant tenantID = ([], some errNoDatabase)) ∧
    (∀ (namespaceName queryName : String) (revision : Int),
        noOpDatabase.FindQuery namespaceName queryName revision = ({}, some errNoDatabase)) ∧
    errNoDatabase = "no op database" ∧
    some errNoDatabase ≠ (none : Option String) := by
  exact ⟨rfl, fun _ => rfl, fun _ _ _ => rfl, rfl, by simp⟩

/-! ## Zip and broadcast laws of the insertion (C5, C6) -/

/-- The index-wise body insertion is `List.zipWith` on equal-length
lists. -/
theorem insertZip_eq_zipWith (path : List String) :
    ∀ ts ss : List Json, ts.length = ss.length →
      insertZip ts path ss = List.zipWith (fun t s => insertAt t path s) ts ss := by
  intro ts
  induction ts with
  | nil => intro ss _; simp [insertZip]
  | cons t rest ih =>
      intro ss h
      cases ss with
      | nil => simp at h
      | cons s srest =>
          simp only [insertZip, List.zipWith]
          rw [ih srest (by simpa using h)]

/-- The element-wise body insertion is `List.map`. -/
theorem insertEach_eq_map (path : List String) (s : Json) :
    ∀ ts : List Json, insertEach ts path s = ts.map (fun t => insertAt t path s) := by
  intro ts
  induction ts with
  | nil => simp [insertEach]
  | cons t rest ih => simp only [insertEach, List.map]; rw [ih]

/-- The index-wise resource insertion is `List.zipWith` on equal-length
lists. -/
theorem aggregateZip_eq_zipWith (path : List String) :
    ∀ ts ss : List Resource, ts.length = ss.length →
      aggregateZip ts path ss = List.zipWith (fun t s => aggregateTarget t path s) ts ss := by
  intro ts
  induction ts with
  | nil => intro ss _; simp [aggregateZip]
  | cons t rest ih =>
      intro ss h
      cases ss with
      | nil => simp at h
      | cons s srest =>
          simp only [aggregateZip, List.zipWith]
          rw [ih srest (by simpa using h)]

/-- The element-wise resource insertion is `List.map`. -/
theorem aggregateEach_eq_map (path : List String) (src : Resource) :
    ∀ ts : List Resource, aggregateEach ts path src = ts.map (fun t => aggregateTarget t path src) := by
  intro ts
  induction ts with
  | nil => simp [aggregateEach]
  | cons t rest ih => simp only [aggregateEach, List.map]; rw [ih]

/-- Claim C5: when source and target at the same depth are both lists of
the same length — JSON list bodies, or both resources multiplexed
`DoneResources` — the insertion zips them index-wise: element i of the
source is inserted into element i of the target at the declared path. -/
theorem claim5_zip (path : List String) :
    (∀ ts ss : List Json, ts.length = ss.length →
        insertAt (.arr ts) path (.arr ss) =
          .arr (List.zipWith (fun t s => insertAt t path s) ts ss)) ∧
    (∀ ts ss : List Resource, ts.length = ss.length →
        aggregateTarget (.doneList ts) path (.doneList ss) =
          .doneList (List.zipWith (fun t s => aggregateTarget t path s) ts ss)) := by
  constructor
  · intro ts ss h
    rw [insertAt, if_pos h, insertZip_eq_zipWith path ts ss h]
  · intro ts ss h
    rw [aggregateTarget, if_pos h, aggregateZip_eq_zipWith path ts ss h]

/-- Claim C5 witness: two equal-length list bodies zip index-wise. -/
theorem claim5_witness :
    insertAt (.arr [.obj [("id", .num 1)], .obj [("id", .num 2)]]) ["sidekick"]
        (.arr [.obj [("id", .num 10)], .obj [("id", .num 11)]]) =
      .arr (List.zipWith (fun t s => insertAt t ["sidekick"] s)
        [.obj [("id", .num 1)], .obj [("id", .num 2)]]
        [.obj [("id", .num 10)], .obj [("id", .num 11)]]) :=
  (claim5_zip ["sidekick"]).1 _ _ rfl

/-- Claim C6: when the target at some depth is a list (a JSON list body or
a multiplexed `DoneResources`) and the source is scalar (not a list of the
same kind), the insertion is applied element-wise: a copy of the source is
inserted into every element of the target list. -/
theorem claim6_broadcast (path : List String) :
    (∀ (ts : List Json) (s : Json), (∀ ss, s ≠ .arr ss) →
        insertAt (.arr ts) path s = .arr (ts.map (fun t => insertAt t path s))) ∧
    (∀ (ts : List Resource) (s : Resource), (∀ ss, s ≠ .doneList ss) →
        aggregateTarget (.doneList ts) path s =
          .doneList (ts.map (fun t => aggregateTarget t path s))) := by
  constructor
  · intro ts s hs
    cases s with
    | arr ss => exact absurd rfl (hs ss)
    | null => rw [insertAt, insertEach_eq_map]; exact hs
    | bool b => rw [insertAt, insertEach_eq_map]; exact hs
    | num n => rw [insertAt, insertEach_eq_map]; exact hs
    | str s => rw [insertAt, insertEach_eq_map]; exact hs
    | obj fs => rw [insertAt, insertEach_eq_map]; exact hs
  · intro ts s hs
    cases s with
    | doneList ss => exact absurd rfl (hs ss)
    | done r => rw [aggregateTarget, aggregateEach_eq_map]; exact hs
    | pending => rw [aggregateTarget, aggregateEach_eq_map]; exact hs

/-- Claim C6 witness: a scalar source is copied into both elements of a
two-element list target. -/
theorem claim6_witness :
    insertAt (.arr [.obj [("id", .num 1)], .obj [("id", .num 2)]]) ["sidekick"]
        (.obj [("id", .num 10)]) =
      .arr (([.obj [("id", .num 1)], .obj [("id", .num 2)]] : List Json).map
        (fun t => insertAt t ["sidekick"] (.obj [("id", .num 10)]))) :=
  (claim6_broadcast ["sidekick"]).1 _ _ (fun _ h => Json.noConfusion h)

/-! ## Emptiness and idempotence of the aggregation (C3) -/

mutual

/-- Emptying bodies leaves no body content. -/
theorem bodiesEmpty_emptyBodies : ∀ r : Resource, bodiesEmpty (emptyBodies r) = true
  | .done r => by rw [emptyBodies, bodiesEmpty]; rfl
  | .doneList rs => by
      rw [emptyBodies, bodiesEmpty]
      exact bodiesEmptyList_emptyBodiesList rs
  | .pending => rfl

/-- Element-wise version of `bodiesEmpty_emptyBodies`. -/
theorem bodiesEmptyList_emptyBodiesList : ∀ rs : List Resource,
    bodiesEmptyList (emptyBodiesList rs) = true
  | [] => rfl
  | r :: rest => by
      rw [emptyBodiesList, bodiesEmptyList, Bool.and_eq_true]
      exact ⟨bodiesEmpty_emptyBodies r, bodiesEmptyList_emptyBodiesList rest⟩

end

mutual

/-- Inserting anything into a target without body content leaves the
target unchanged (there is no body to insert into). -/
theorem aggregateTarget_of_empty : ∀ (t : Resource) (path : List String) (s : Resource),
    bodiesEmpty t = true → aggregateTarget t path s = t
  | .done tr, path, .done sr, h => by
      rw [bodiesEmpty, Option.isNone_iff_eq_none] at h
      cases hs : sr.ResponseBody <;> simp [aggregateTarget, h, hs]
  | .done tr, path, .doneList ss, h => by
      rw [bodiesEmpty, Option.isNone_iff_eq_none] at h
      simp only [aggregateTarget, h, Option.map_none']
      have h2 : ({ tr with ResponseBody := none } : DoneResource) = tr := by
        rw [← h]
      rw [h2]
  | .done tr, path, .pending, h => by
      simp [aggregateTarget]
  | .doneList ts, path, .doneList ss, h => by
      rw [bodiesEmpty] at h
      rw [aggregateTarget]
      by_cases hlen : ts.length = ss.length
      · rw [if_pos hlen, aggregateZip_of_empty ts path ss h hlen]
      · rw [if_neg hlen, aggregateEach_of_empty ts path (.doneList ss) h]
  | .doneList ts, path, .done sr, h => by
      rw [bodiesEmpty] at h
      rw [aggregateTarget, aggregateEach_of_empty ts path (.done sr) h]
      exact fun _ hx => Resource.noConfusion hx
  | .doneList ts, path, .pending, h => by
      rw [bodiesEmpty] at h
      rw [aggregateTarget, aggregateEach_of_empty ts path .pending h]
      exact fun _ hx => Resource.noConfusion hx
  | .pending, path, s, h => by simp [aggregateTarget]

/-- Zip version of `aggregateTarget_of_empty`. -/
theorem aggregateZip_of_empty : ∀ (ts : List Resource) (path : List String) (ss : List Resource),
    bodiesEmptyList ts = true → ts.length = ss.length → aggregateZip ts path ss = ts
  | [], _, _, _, _ => by rw [aggregateZip]
  | t :: ts, path, [], _, hlen => by simp at hlen
  | t :: ts, path, s :: ss, h, hlen => by
      rw [bodiesEmptyList, Bool.and_eq_true] at h
      rw [aggregateZip, aggregateTarget_of_empty t path s h.1,
        aggregateZip_of_empty ts path ss h.2 (by simpa using hlen)]

/-- Broadcast version of `aggregateTarget_of_empty`. -/
theorem aggregateEach_of_empty : ∀ (ts : List Resource) (path : List String) (src : Resource),
    bodiesEmptyList ts = true → aggregateEach ts path src = ts
  | [], _, _, _ => by rw [aggregateEach]
  | t :: ts, path, src, h => by
      rw [bodiesEmptyList, Bool.and_eq_true] at h
      rw [aggregateEach, aggregateTarget_of_empty t path src h.1,
        aggregateEach_of_empty ts path src h.2]

end

/-- Evaluating `updateRes` on a cons cell updates the head when its key matches. -/
theorem updateRes_cons (a : String) (b : Resource) (rest : Resources) (k : String) (v : Resource) :
    updateRes ((a, b) :: rest) k v = (if a = k then (k, v) else (a, b)) :: updateRes rest k v := rfl

/-- Evaluating `lookupRes` on a cons cell. -/
theorem lookupRes_cons (a : String) (b : Resource) (rest : Resources) (k : String) :
    lookupRes ((a, b) :: rest) k = if a = k then some b else lookupRes rest k := rfl

/-- Looking up the updated key yields the new value (when the key was
present at all). -/
theorem lookupRes_updateRes_self : ∀ (rs : Resources) (k : String) (v : Resource),
    lookupRes (updateRes rs k v) k = (lookupRes rs k).map (fun _ => v)
  | [], _, _ => rfl
  | (a, b) :: rest, k, v => by
      rw [updateRes_cons]
      by_cases h : a = k
      · rw [if_pos h, lookupRes_cons, if_pos rfl, lookupRes_cons, if_pos h]
        rfl
      · rw [if_neg h, lookupRes_cons, if_neg h, lookupRes_cons, if_neg h]
        exact lookupRes_updateRes_self rest k v

/-- Updating one key does not disturb lookups of another. -/
theorem lookupRes_updateRes_other : ∀ (rs : Resources) (k k' : String) (v : Resource), k ≠ k' →
    lookupRes (updateRes rs k' v) k = lookupRes rs k
  | [], _, _, _, _ => rfl
  | (a, b) :: rest, k, k', v, hkk => by
      rw [updateRes_cons]
      by_cases h : a = k'
      · subst h
        have hak : ¬ a = k := fun he => hkk he.symm
        rw [if_pos rfl, lookupRes_cons, if_neg (fun he : a = k => hak he), lookupRes_cons,
          if_neg hak]
        exact lookupRes_updateRes_other rest k a v hkk
      · rw [if_neg h, lookupRes_cons, lookupRes_cons]
        by_cases hak : a = k
        · rw [if_pos hak, if_pos hak]
        · rw [if_neg hak, if_neg hak]
          exact lookupRes_updateRes_other rest k k' v hkk

/-- An update never changes which keys are present. -/
theorem lookupRes_updateRes_isSome (rs : Resources) (k k' : String) (v : Resource) :
    (lookupRes (updateRes rs k' v) k).isSome = (lookupRes rs k).isSome := by
  by_cases h : k = k'
  · subst h
    rw [lookupRes_updateRes_self]
    cases lookupRes rs k <;> rfl
  · rw [lookupRes_updateRes_other rs k k' v h]

/-- One aggregation rewrite never changes which keys are present. -/
theorem applyInAt_lookup_isSome (acc : Resources) (srcKey target : String) (path : List String)
    (k : String) :
    (lookupRes (applyInAt acc srcKey target path) k).isSome = (lookupRes acc k).isSome := by
  rw [applyInAt]
  split
  · split
    · rfl
    · rw [lookupRes_updateRes_isSome, lookupRes_updateRes_isSome]
  · rfl

/-- Processing one statement never changes which keys are present. -/
theorem applyInStatement_lookup_isSome (acc : Resources) (st : Statement) (k : String) :
    (lookupRes (applyInStatement acc st) k).isSome = (lookupRes acc k).isSome := by
  rw [applyInStatement]
  split
  · rfl
  · rw [applyInAt_lookup_isSome]

/-- One aggregation rewrite preserves body-emptiness of every key. -/
theorem applyInAt_preserves_keyEmpty (acc : Resources) (srcKey target : String)
    (path : List String) (k : String) (h : keyEmpty acc k) :
    keyEmpty (applyInAt acc srcKey target path) k := by
  rw [applyInAt]
  split
  next src tgt hsrc htgt =>
    split
    · exact h
    · intro r hr
      by_cases hk : k = srcKey
      · subst hk
        rw [lookupRes_updateRes_self] at hr
        cases hl : lookupRes (updateRes acc target (aggregateTarget tgt path src)) k with
        | none => rw [hl] at hr; cases hr
        | some x =>
            rw [hl] at hr
            cases hr
            exact bodiesEmpty_emptyBodies src
      · rw [lookupRes_updateRes_other _ _ _ _ hk] at hr
        by_cases hk2 : k = target
        · subst hk2
          rw [lookupRes_updateRes_self, htgt] at hr
          cases hr
          have hte : bodiesEmpty tgt = true := h tgt htgt
          rw [aggregateTarget_of_empty tgt path src hte]
          exact hte
        · rw [lookupRes_updateRes_other _ _ _ _ hk2] at hr
          exact h r hr
  next => exact h

/-- Processing one statement preserves body-emptiness of every key. -/
theorem applyInStatement_preserves_keyEmpty (acc : Resources) (st : Statement) (k : String)
    (h : keyEmpty acc k) : keyEmpty (applyInStatement acc st) k := by
  rw [applyInStatement]
  split
  · exact h
  · exact applyInAt_preserves_keyEmpty acc _ _ _ k h

/-- After an aggregation rewrite, the source key carries no body content,
provided the target key is present. -/
theorem applyInAt_establishes (acc : Resources) (srcKey target : String) (path : List String)
    (htgt : (lookupRes acc target).isSome = true) :
    keyEmpty (applyInAt acc srcKey target path) srcKey := by
  rw [applyInAt]
  split
  next src tgt hsrc htgt2 =>
    split
    next hbe =>
      intro r hr
      rw [hsrc] at hr
      cases hr
      exact hbe
    next hbe =>
      intro r hr
      rw [lookupRes_updateRes_self] at hr
      cases hl : lookupRes (updateRes acc target (aggregateTarget tgt path src)) srcKey with
      | none => rw [hl] at hr; cases hr
      | some x =>
          rw [hl] at hr
          cases hr
          exact bodiesEmpty_emptyBodies src
  next hno =>
    intro r hr
    cases hT : lookupRes acc target with
    | none => rw [hT] at htgt; cases htgt
    | some tgt => exact (hno r tgt hr hT).elim

/-- The whole fold preserves body-emptiness of every key. -/
theorem foldl_preserves_keyEmpty (sts : List Statement) :
    ∀ (acc : Resources) (k : String), keyEmpty acc k →
      keyEmpty (sts.foldl applyInStatement acc) k := by
  induction sts with
  | nil => intro acc k h; exact h
  | cons s rest ih =>
      intro acc k h
      exact ih (applyInStatement acc s) k (applyInStatement_preserves_keyEmpty acc s k h)

/-- The whole fold never changes which keys are present. -/
theorem foldl_lookup_isSome (sts : List Statement) :
    ∀ (acc : Resources) (k : String),
      (lookupRes (sts.foldl applyInStatement acc) k).isSome = (lookupRes acc k).isSome := by
  induction sts with
  | nil => intro acc k; rfl
  | cons s rest ih =>
      intro acc k
      rw [List.foldl_cons, ih, applyInStatement_lookup_isSome]

/-- After the fold, every processed `in`-statement whose target key is
present has an empty source. -/
theorem foldl_establishes (sts : List Statement) :
    ∀ (acc : Resources) (st : Statement) (target : String) (path : List String),
      st ∈ sts → st.In = target :: path → (lookupRes acc target).isSome = true →
      keyEmpty (sts.foldl applyInStatement acc) (statementKey st) := by
  induction sts with
  | nil => intro acc st target path hmem; cases hmem
  | cons s rest ih =>
      intro acc st target path hmem hin htgt
      rcases List.mem_cons.mp hmem with rfl | hmem2
      · refine foldl_preserves_keyEmpty rest _ _ ?_
        rw [applyInStatement, hin]
        exact applyInAt_establishes acc (statementKey st) target path htgt
      · refine ih (applyInStatement acc s) st target path hmem2 hin ?_
        rw [applyInStatement_lookup_isSome]
        exact htgt

/-- A statement whose source is already empty (or whose keys are missing)
leaves the map unchanged. -/
theorem applyInStatement_noop (acc : Resources) (st : Statement)
    (h : ∀ target path, st.In = target :: path → keyEmpty acc (statementKey st)) :
    applyInStatement acc st = acc := by
  rw [applyInStatement]
  cases hin : st.In with
  | nil => rfl
  | cons target path =>
      change applyInAt acc (statementKey st) target path = acc
      rw [applyInAt]
      split
      next src tgt hsrc htgt =>
        split
        next => rfl
        next hbe => exact absurd (h target path hin src hsrc) hbe
      next => rfl

/-- A fold of no-op steps is the identity. -/
theorem foldl_noop (sts : List Statement) (acc : Resources)
    (h : ∀ st ∈ sts, applyInStatement acc st = acc) :
    sts.foldl applyInStatement acc = acc := by
  induction sts with
  | nil => rfl
  | cons s rest ih =>
      rw [List.foldl_cons, h s (List.mem_cons_self s rest)]
      exact ih (fun st hmem => h st (List.mem_cons_of_mem s hmem))

/-- Claim C3: for every query and resources map in which each
`in`-statement's target key is present (as after the Runner populated the
map), running the Shaper empties every `in`-statement's source resource —
its content now appears only nested inside its target — and running the
Shaper a second time changes nothing (idempotence). -/
theorem claim3_aggregation (q : Query) (rs : Resources)
    (hpres : ∀ st ∈ q.Statements, ∀ target path, st.In = target :: path →
        (lookupRes rs target).isSome = true) :
    (∀ st ∈ q.Statements, ∀ target path, st.In = target :: path →
        ∀ r, lookupRes (ApplyAggregators q rs) (statementKey st) = some r →
          bodiesEmpty r = true) ∧
    ApplyAggregators q (ApplyAggregators q rs) = ApplyAggregators q rs := by
  constructor
  · intro st hmem target path hin r hr
    exact foldl_establishes q.Statements rs st target path hmem hin
      (hpres st hmem target path hin) r hr
  · show q.Statements.foldl applyInStatement (ApplyAggregators q rs) = ApplyAggregators q rs
    apply foldl_noop
    intro st hmem
    apply applyInStatement_noop
    intro target path hin
    exact foldl_establishes q.Statements rs st target path hmem hin
      (hpres st hmem target path hin)

/-- Claim C3 witness: on the test-table data the source resource ends up
empty and re-running the Shaper is a no-op. -/
theorem claim3_witness :
    ApplyAggregators
        { Statements := [{ Resource := "hero" }, { Resource := "sidekick", In := ["hero", "sidekick"] }] }
        (ApplyAggregators
          { Statements := [{ Resource := "hero" }, { Resource := "sidekick", In := ["hero", "sidekick"] }] }
          [("hero", .done { ResponseBody := some (.obj [("id", .num 1)]) }),
           ("sidekick", .done { ResponseBody := some (.obj [("id", .num 10)]) })]) =
      ApplyAggregators
        { Statements := [{ Resource := "hero" }, { Resource := "sidekick", In := ["hero", "sidekick"] }] }
        [("hero", .done { ResponseBody := some (.obj [("id", .num 1)]) }),
         ("sidekick", .done { ResponseBody := some (.obj [("id", .num 10)]) })] :=
  (claim3_aggregation _ _ (by
    intro st hmem target path hin
    rcases List.mem_cons.mp hmem with rfl | hmem2
    · simp at hin
    · rcases List.mem_cons.mp hmem2 with rfl | hmem3
      · simp only at hin
        injection hin with h1 h2
        subst h1
        rfl
      · cases hmem3)).2

end RestQL
